import Mathlib

/-!
Verification of the monitoring loop and statistics of `monitor-cellular.py`
(class `CellularMonitor`). The per-cycle state machine (`CellularMonitor.monitor`,
the body of the `while` loop), the rolling deques, and the report constructors
(`print_stats`, `print_final_stats`) are embedded shallowly below. Timestamps are
modelled as integers and round-trip times / rates as rationals; `datetime.now()`
values observed inside a cycle are supplied as part of that cycle input.
-/

namespace PiCellular

/-- Outcome of one `ping_host` call as consumed by the loop: `success` carries the
round-trip time (`rtt`), `failure` carries the error reason string. -/
inductive PingOutcome where
  | success (rtt : ℚ)
  | failure (reason : String)
  deriving DecidableEq, Repr

/-- One iteration of the monitoring loop: the `datetime.now()` timestamp observed
during the cycle and the probe outcome. -/
structure Cycle where
  now : ℤ
  outcome : PingOutcome
  deriving DecidableEq, Repr

/-- Mutable statistics of `CellularMonitor` (fields set in `__init__`,
lines 37-47): counters, downtime-episode tracking, and the two rolling deques
(`deque(maxlen=100)`), modelled as lists with explicit bounded append. -/
structure MonitorState where
  ping_count : ℕ
  success_count : ℕ
  failure_count : ℕ
  downtime_start : Option ℤ
  downtime_duration : ℤ
  max_downtime : ℤ
  current_downtime : ℤ
  recent_pings : List ℚ
  recent_failures : List String
  deriving DecidableEq, Repr

/-- Initial state from `CellularMonitor.__init__`: all counters zero, no active
episode, empty deques. -/
def initState : MonitorState :=
  { ping_count := 0
    success_count := 0
    failure_count := 0
    downtime_start := none
    downtime_duration := 0
    max_downtime := 0
    current_downtime := 0
    recent_pings := []
    recent_failures := [] }

/-- Append to a `collections.deque(maxlen=maxlen)`: when the deque is already at
capacity, the leftmost (oldest) element is discarded as the new one is appended
on the right. -/
def dequeAppend {α : Type} (maxlen : ℕ) (xs : List α) (x : α) : List α :=
  if xs.length < maxlen then xs ++ [x] else xs.drop 1 ++ [x]

/-- One loop iteration of `CellularMonitor.monitor` (source lines 279-311):
increment `ping_count`; on success increment `success_count`, append the rtt to
`recent_pings`, and if a downtime episode is active close it (accumulate its
duration, update the max episode, clear `downtime_start`, zero
`current_downtime`); on failure increment `failure_count`, append the reason to
`recent_failures`, and either open an episode (`downtime_start = now`) or update
`current_downtime` to the elapsed time since the episode start. -/
def step (s : MonitorState) (c : Cycle) : MonitorState :=
  match c.outcome with
  | .success rtt =>
    match s.downtime_start with
    | some t0 =>
      let downtime := c.now - t0
      { s with
        ping_count := s.ping_count + 1
        success_count := s.success_count + 1
        recent_pings := dequeAppend 100 s.recent_pings rtt
        downtime_duration := s.downtime_duration + downtime
        max_downtime := if downtime > s.max_downtime then downtime else s.max_downtime
        downtime_start := none
        current_downtime := 0 }
    | none =>
      { s with
        ping_count := s.ping_count + 1
        success_count := s.success_count + 1
        recent_pings := dequeAppend 100 s.recent_pings rtt }
  | .failure reason =>
    match s.downtime_start with
    | none =>
      { s with
        ping_count := s.ping_count + 1
        failure_count := s.failure_count + 1
        recent_failures := dequeAppend 100 s.recent_failures reason
        downtime_start := some c.now }
    | some t0 =>
      { s with
        ping_count := s.ping_count + 1
        failure_count := s.failure_count + 1
        recent_failures := dequeAppend 100 s.recent_failures reason
        current_downtime := c.now - t0 }

/-- Run the loop body over a sequence of cycles (no end-time check; this is the
loop as driven while the duration has not expired). -/
def runCycles (s : MonitorState) (cs : List Cycle) : MonitorState :=
  cs.foldl step s

theorem runCycles_nil (s : MonitorState) : runCycles s [] = s := rfl

theorem runCycles_cons (s : MonitorState) (c : Cycle) (cs : List Cycle) :
    runCycles s (c :: cs) = runCycles (step s c) cs := rfl

/-- Per-step bookkeeping facts used by several invariants. -/
theorem step_ping_count (s : MonitorState) (c : Cycle) :
    (step s c).ping_count = s.ping_count + 1 := by
  cases c with
  | mk now outcome =>
    cases outcome <;> cases h : s.downtime_start <;> simp [step, h]

theorem step_success (s : MonitorState) (now : ℤ) (rtt : ℚ) :
    (step s ⟨now, .success rtt⟩).success_count = s.success_count + 1 ∧
    (step s ⟨now, .success rtt⟩).failure_count = s.failure_count ∧
    (step s ⟨now, .success rtt⟩).recent_pings = dequeAppend 100 s.recent_pings rtt ∧
    (step s ⟨now, .success rtt⟩).recent_failures = s.recent_failures := by
  cases h : s.downtime_start <;> simp [step, h]

theorem step_failure (s : MonitorState) (now : ℤ) (reason : String) :
    (step s ⟨now, .failure reason⟩).failure_count = s.failure_count + 1 ∧
    (step s ⟨now, .failure reason⟩).success_count = s.success_count ∧
    (step s ⟨now, .failure reason⟩).recent_failures =
      dequeAppend 100 s.recent_failures reason ∧
    (step s ⟨now, .failure reason⟩).recent_pings = s.recent_pings := by
  cases h : s.downtime_start <;> simp [step, h]

/-- Length of a bounded-deque append: grows by one below capacity, otherwise one
element is dropped before the append. -/
theorem dequeAppend_length {α : Type} (maxlen : ℕ) (xs : List α) (x : α) :
    (dequeAppend maxlen xs x).length =
      if xs.length < maxlen then xs.length + 1 else xs.length - 1 + 1 := by
  by_cases h : xs.length < maxlen <;> simp [dequeAppend, h]

/-- Length of a capacity-100 deque append, tracked against a counter. -/
theorem dequeAppend_length_min {α : Type} (n : ℕ) (xs : List α) (x : α)
    (h : xs.length = min n 100) :
    (dequeAppend 100 xs x).length = min (n + 1) 100 := by
  rw [dequeAppend_length, h]
  split_ifs <;> omega

/-- Joint inductive invariant of the loop state. -/
def StateInv (s : MonitorState) : Prop :=
  s.success_count + s.failure_count = s.ping_count ∧
  s.recent_pings.length = min s.success_count 100 ∧
  s.recent_failures.length = min s.failure_count 100 ∧
  (s.downtime_start = none → s.current_downtime = 0)

theorem stateInv_init : StateInv initState := by
  refine ⟨rfl, rfl, rfl, fun _ => rfl⟩

theorem stateInv_step (s : MonitorState) (c : Cycle) (h : StateInv s) :
    StateInv (step s c) := by
  obtain ⟨hcnt, hp, hf, hcd⟩ := h
  obtain ⟨now, outcome⟩ := c
  cases outcome with
  | success rtt =>
    cases hds : s.downtime_start with
    | some t0 =>
      refine ⟨?_, ?_, ?_, fun _ => ?_⟩
      · simp [step, hds]; omega
      · simp only [step, hds]
        exact dequeAppend_length_min _ _ _ hp
      · simp [step, hds, hf]
      · simp [step, hds]
    | none =>
      refine ⟨?_, ?_, ?_, fun _ => ?_⟩
      · simp [step, hds]; omega
      · simp only [step, hds]
        exact dequeAppend_length_min _ _ _ hp
      · simp [step, hds, hf]
      · simp only [step, hds]
        exact hcd hds
  | failure reason =>
    cases hds : s.downtime_start with
    | some t0 =>
      refine ⟨?_, ?_, ?_, ?_⟩
      · simp [step, hds]; omega
      · simp [step, hds, hp]
      · simp only [step, hds]
        exact dequeAppend_length_min _ _ _ hf
      · intro hn
        simp [step, hds] at hn
    | none =>
      refine ⟨?_, ?_, ?_, ?_⟩
      · simp [step, hds]; omega
      · simp [step, hds, hp]
      · simp only [step, hds]
        exact dequeAppend_length_min _ _ _ hf
      · intro hn
        simp [step, hds] at hn

theorem stateInv_runCycles (s : MonitorState) (cs : List Cycle) (h : StateInv s) :
    StateInv (runCycles s cs) := by
  induction cs generalizing s with
  | nil => exact h
  | cons c cs ih => exact ih _ (stateInv_step s c h)

/-- C1: after every sequence of completed cycles the counters balance, and each
single cycle increments `ping_count` exactly once and exactly one of
`success_count` or `failure_count` exactly once. -/
theorem counters_balance (cs : List Cycle) :
    (runCycles initState cs).success_count + (runCycles initState cs).failure_count =
      (runCycles initState cs).ping_count ∧
    ∀ (s : MonitorState) (c : Cycle),
      (step s c).ping_count = s.ping_count + 1 ∧
      (((step s c).success_count = s.success_count + 1 ∧
          (step s c).failure_count = s.failure_count) ∨
        ((step s c).failure_count = s.failure_count + 1 ∧
          (step s c).success_count = s.success_count)) := by
  refine ⟨(stateInv_runCycles initState cs stateInv_init).1, fun s c => ?_⟩
  refine ⟨step_ping_count s c, ?_⟩
  cases c with
  | mk now outcome =>
    cases outcome with
    | success rtt =>
      exact Or.inl ⟨(step_success s now rtt).1, (step_success s now rtt).2.1⟩
    | failure reason =>
      exact Or.inr ⟨(step_failure s now reason).1, (step_failure s now reason).2.1⟩

/-- Durations of the downtime episodes that are opened and closed along a cycle
sequence, given the episode start currently active (if any). An episode opens at
the first failure while none is active and closes at the next success; its
duration is the closing `now` minus the recorded start. An episode still open at
the end of the list contributes nothing. -/
def closedEpisodes : Option ℤ → List Cycle → List ℤ
  | _, [] => []
  | none, c :: cs =>
    match c.outcome with
    | .failure _ => closedEpisodes (some c.now) cs
    | .success _ => closedEpisodes none cs
  | some t0, c :: cs =>
    match c.outcome with
    | .failure _ => closedEpisodes (some t0) cs
    | .success _ => (c.now - t0) :: closedEpisodes none cs

theorem runCycles_downtime_duration (cs : List Cycle) (s : MonitorState) :
    (runCycles s cs).downtime_duration =
      s.downtime_duration + (closedEpisodes s.downtime_start cs).sum := by
  induction cs generalizing s with
  | nil => simp [runCycles, closedEpisodes]
  | cons c cs ih =>
    obtain ⟨now, outcome⟩ := c
    rw [runCycles_cons, ih]
    cases outcome with
    | success rtt =>
      cases hds : s.downtime_start with
      | some t0 =>
        simp [step, hds, closedEpisodes]
        omega
      | none => simp [step, hds, closedEpisodes]
    | failure reason =>
      cases hds : s.downtime_start with
      | some t0 => simp [step, hds, closedEpisodes]
      | none => simp [step, hds, closedEpisodes]

/-- C2: cumulative downtime at the end of any run equals the sum of the closed
episode durations; an episode still open when the run ends contributes
nothing. -/
theorem cumulative_downtime_eq (cs : List Cycle) :
    (runCycles initState cs).downtime_duration = (closedEpisodes none cs).sum := by
  simpa [initState] using runCycles_downtime_duration cs initState

theorem ite_gt_eq_max (m d : ℤ) : (if d > m then d else m) = max m d := by
  rw [max_def]
  split_ifs <;> omega

theorem runCycles_max_downtime (cs : List Cycle) (s : MonitorState) :
    (runCycles s cs).max_downtime =
      (closedEpisodes s.downtime_start cs).foldl max s.max_downtime := by
  induction cs generalizing s with
  | nil => simp [runCycles, closedEpisodes]
  | cons c cs ih =>
    obtain ⟨now, outcome⟩ := c
    rw [runCycles_cons, ih]
    cases outcome with
    | success rtt =>
      cases hds : s.downtime_start with
      | some t0 => simp [step, hds, closedEpisodes, ite_gt_eq_max]
      | none => simp [step, hds, closedEpisodes]
    | failure reason =>
      cases hds : s.downtime_start with
      | some t0 => simp [step, hds, closedEpisodes]
      | none => simp [step, hds, closedEpisodes]

/-- Under monotone cycle timestamps every closed episode duration is
non-negative (the closing time is at least the recorded start time). -/
theorem closedEpisodes_nonneg :
    ∀ (cs : List Cycle) (t0opt : Option ℤ),
      List.Chain' (· ≤ ·) (cs.map Cycle.now) →
      (∀ t0, t0opt = some t0 → ∀ c, cs.head? = some c → t0 ≤ c.now) →
      ∀ d ∈ closedEpisodes t0opt cs, 0 ≤ d := by
  intro cs
  induction cs with
  | nil =>
    intro t0opt _ _ d hd
    simp [closedEpisodes] at hd
  | cons c cs ih =>
    obtain ⟨now, outcome⟩ := c
    intro t0opt hchain hstart
    rw [List.map_cons, List.chain'_cons'] at hchain
    obtain ⟨hhead, htail⟩ := hchain
    have hnext : ∀ c2 : Cycle, cs.head? = some c2 → now ≤ c2.now := fun c2 hc2 =>
      hhead c2.now (by rw [List.head?_map, hc2]; rfl)
    cases t0opt with
    | none =>
      cases outcome with
      | success rtt =>
        intro d hd
        simp only [closedEpisodes] at hd
        exact ih none htail (fun t0 h => nomatch h) d hd
      | failure reason =>
        intro d hd
        simp only [closedEpisodes] at hd
        exact ih (some now) htail
          (fun t0 h c2 hc2 => by cases h; exact hnext c2 hc2) d hd
    | some t0 =>
      cases outcome with
      | success rtt =>
        have ht0 : t0 ≤ now := hstart t0 rfl ⟨now, .success rtt⟩ rfl
        intro d hd
        simp only [closedEpisodes, List.mem_cons] at hd
        rcases hd with rfl | hd
        · omega
        · exact ih none htail (fun t1 h => nomatch h) d hd
      | failure reason =>
        have ht0 : t0 ≤ now := hstart t0 rfl ⟨now, .failure reason⟩ rfl
        intro d hd
        simp only [closedEpisodes] at hd
        exact ih (some t0) htail
          (fun t1 h c2 hc2 => by cases h; exact le_trans ht0 (hnext c2 hc2)) d hd

/-- Maximum of a list of integers, `0` for the empty list. -/
def listMax : List ℤ → ℤ
  | [] => 0
  | d :: ds => ds.foldl max d

theorem foldl_max_zero_eq_listMax (ds : List ℤ) (h : ∀ d ∈ ds, 0 ≤ d) :
    ds.foldl max 0 = listMax ds := by
  cases ds with
  | nil => rfl
  | cons d ds =>
    have : max 0 d = d := max_eq_right (h d (List.mem_cons_self d ds))
    simp [listMax, List.foldl_cons, this]

/-- C3: provided cycle timestamps are monotone (wall-clock time does not run
backwards), the max-episode accumulator equals the maximum over all closed
episode durations, and `0` when no episode has been closed. -/
theorem max_downtime_eq (cs : List Cycle)
    (hmono : List.Chain' (· ≤ ·) (cs.map Cycle.now)) :
    (runCycles initState cs).max_downtime = listMax (closedEpisodes none cs) := by
  have h2 : ∀ d ∈ closedEpisodes none cs, 0 ≤ d :=
    closedEpisodes_nonneg cs none hmono (fun t0 h => nomatch h)
  exact (runCycles_max_downtime cs initState).trans (foldl_max_zero_eq_listMax _ h2)

/-- Concrete instantiation of `max_downtime_eq`: a run with one closed episode
spanning timestamps 2 to 9 yields a maximum episode duration of 7. -/
theorem max_downtime_eq_witness :
    (runCycles initState
        [⟨0, PingOutcome.success 1⟩, ⟨2, PingOutcome.failure "t"⟩,
          ⟨5, PingOutcome.failure "t"⟩, ⟨9, PingOutcome.success 3⟩]).max_downtime =
      listMax (closedEpisodes none
        [⟨0, PingOutcome.success 1⟩, ⟨2, PingOutcome.failure "t"⟩,
          ⟨5, PingOutcome.failure "t"⟩, ⟨9, PingOutcome.success 3⟩]) :=
  max_downtime_eq _ (by norm_num [List.chain'_cons])

/-- C4: the two rolling buffers never hold more than 100 entries in any run, and
appending to a buffer already holding exactly 100 entries evicts exactly the
oldest entry while keeping the remaining 99 in order. -/
theorem rolling_buffers_bounded :
    (∀ cs : List Cycle,
      (runCycles initState cs).recent_pings.length ≤ 100 ∧
      (runCycles initState cs).recent_failures.length ≤ 100) ∧
    (∀ {α : Type} (xs : List α) (x : α), xs.length = 100 →
      dequeAppend 100 xs x = xs.tail ++ [x] ∧ xs.tail.length = 99) := by
  constructor
  · intro cs
    have h := stateInv_runCycles initState cs stateInv_init
    constructor
    · rw [h.2.1]; omega
    · rw [h.2.2.1]; omega
  · intro α xs x hlen
    have hnot : ¬ xs.length < 100 := by omega
    refine ⟨?_, ?_⟩
    · simp [dequeAppend, hnot, List.drop_one]
    · simp [List.length_tail, hlen]

/-- Concrete instantiation of `rolling_buffers_bounded` on a full buffer of 100
zero latencies: the append drops the head and keeps 99 entries plus the new
one. -/
theorem rolling_buffers_bounded_witness :
    dequeAppend 100 (List.replicate 100 (0 : ℚ)) 5 =
        (List.replicate 100 (0 : ℚ)).tail ++ [5] ∧
      (List.replicate 100 (0 : ℚ)).tail.length = 99 :=
  rolling_buffers_bounded.2 (List.replicate 100 0) 5 (by simp)

/-- C9: after any run, the rolling latency buffer holds exactly
`min success_count 100` entries and the rolling failure buffer exactly
`min failure_count 100`; a successful cycle appends exactly one latency and no
failure reason, and a failed cycle appends exactly one reason and no
latency. -/
theorem rolling_buffer_lengths (cs : List Cycle) :
    ((runCycles initState cs).recent_pings.length =
        min (runCycles initState cs).success_count 100 ∧
      (runCycles initState cs).recent_failures.length =
        min (runCycles initState cs).failure_count 100) ∧
    ∀ (s : MonitorState) (now : ℤ),
      (∀ rtt : ℚ,
        (step s ⟨now, .success rtt⟩).recent_pings =
          dequeAppend 100 s.recent_pings rtt ∧
        (step s ⟨now, .success rtt⟩).recent_failures = s.recent_failures) ∧
      (∀ reason : String,
        (step s ⟨now, .failure reason⟩).recent_failures =
          dequeAppend 100 s.recent_failures reason ∧
        (step s ⟨now, .failure reason⟩).recent_pings = s.recent_pings) := by
  have h := stateInv_runCycles initState cs stateInv_init
  refine ⟨⟨h.2.1, h.2.2.1⟩, fun s now => ⟨fun rtt => ?_, fun reason => ?_⟩⟩
  · exact ⟨(step_success s now rtt).2.2.1, (step_success s now rtt).2.2.2⟩
  · exact ⟨(step_failure s now reason).2.2.1, (step_failure s now reason).2.2.2⟩

/-- C10: the displayed current downtime stays `0` through the cycle that opens
an episode (which records `downtime_start = now`), is set to the elapsed time
since the episode start from the second consecutive failure onward, and is reset
to `0` by the success that closes the episode. -/
theorem current_downtime_behavior (cs : List Cycle) (now : ℤ) (reason : String)
    (rtt : ℚ) :
    ((runCycles initState cs).downtime_start = none →
      (step (runCycles initState cs) ⟨now, .failure reason⟩).current_downtime = 0 ∧
      (step (runCycles initState cs) ⟨now, .failure reason⟩).downtime_start =
        some now) ∧
    (∀ t0, (runCycles initState cs).downtime_start = some t0 →
      (step (runCycles initState cs) ⟨now, .failure reason⟩).current_downtime =
        now - t0) ∧
    (∀ t0, (runCycles initState cs).downtime_start = some t0 →
      (step (runCycles initState cs) ⟨now, .success rtt⟩).current_downtime = 0) := by
  have hinv := stateInv_runCycles initState cs stateInv_init
  refine ⟨fun hds => ⟨?_, ?_⟩, fun t0 hds => ?_, fun t0 hds => ?_⟩
  · simp only [step, hds]
    exact hinv.2.2.2 hds
  · simp [step, hds]
  · simp [step, hds]
  · simp [step, hds]

/-- Concrete instantiations of `current_downtime_behavior`: an opening failure
at time 5 keeps the displayed downtime at `0`, a continuing failure at time 7
after an episode opened at time 3 displays `4`, and a closing success resets the
display to `0`. -/
theorem current_downtime_behavior_witness :
    ((step (runCycles initState []) ⟨5, PingOutcome.failure "x"⟩).current_downtime
        = 0 ∧
      (step (runCycles initState []) ⟨5, PingOutcome.failure "x"⟩).downtime_start
        = some 5) ∧
    (step (runCycles initState [⟨3, PingOutcome.failure "a"⟩])
        ⟨7, PingOutcome.failure "y"⟩).current_downtime = 7 - 3 ∧
    (step (runCycles initState [⟨3, PingOutcome.failure "a"⟩])
        ⟨7, PingOutcome.success 2⟩).current_downtime = 0 :=
  ⟨(current_downtime_behavior [] 5 "x" 2).1 rfl,
    (current_downtime_behavior [⟨3, PingOutcome.failure "a"⟩] 7 "y" 2).2.1 3
      (by decide),
    (current_downtime_behavior [⟨3, PingOutcome.failure "a"⟩] 7 "y" 2).2.2 3
      (by decide)⟩

/-- Model of the `failure_types` dictionary update in `print_final_stats`
(source lines 372-374): `failure_types[failure] = failure_types.get(failure, 0) + 1`,
with the dictionary kept as an association list in key insertion order. -/
def addReason (acc : List (String × ℕ)) (r : String) : List (String × ℕ) :=
  if (acc.map Prod.fst).contains r then
    acc.map (fun p => if p.1 = r then (p.1, p.2 + 1) else p)
  else acc ++ [(r, 1)]

/-- The `failure_types` dictionary built from the rolling failure buffer. -/
def failureTypes (rs : List String) : List (String × ℕ) :=
  rs.foldl addReason []

/-- Model of `sorted(failure_types.items(), key=lambda x: x[1], reverse=True)`:
a stable sort by descending occurrence count (Python `sorted` is stable and
`mergeSort` is stable). -/
def sortByCountDesc (l : List (String × ℕ)) : List (String × ℕ) :=
  l.mergeSort (fun a b => decide (b.2 ≤ a.2))

/-- Mean, minimum and maximum of the rolling latency window, produced only when
the window is nonempty (source lines 331-335 and 360-364). -/
def rttStats (xs : List ℚ) : Option (ℚ × ℚ × ℚ) :=
  match xs with
  | [] => none
  | x :: rest => some (xs.sum / xs.length, rest.foldl min x, rest.foldl max x)

/-- Fields of the periodic `print_stats` report (source lines 325-340). -/
structure StatReport where
  success_rate : ℚ
  rtt : Option (ℚ × ℚ × ℚ)
  downtime : Option ℤ
  deriving DecidableEq, Repr

/-- The periodic report of `CellularMonitor.print_stats`: success rate (zero
when no probe has run), rolling-window latency statistics when present, and the
current downtime while an episode is active. -/
def print_stats (s : MonitorState) : StatReport :=
  { success_rate :=
      if s.ping_count > 0 then (s.success_count : ℚ) / (s.ping_count : ℚ) * 100
      else 0
    rtt := rttStats s.recent_pings
    downtime :=
      match s.downtime_start with
      | some _ => some s.current_downtime
      | none => none }

/-- Fields of the final report of `CellularMonitor.print_final_stats`
(source lines 342-378). -/
structure FinalReport where
  total_pings : ℕ
  successes : ℕ
  failures : ℕ
  success_rate : ℚ
  loss_rate : ℚ
  rtt : Option (ℚ × ℚ × ℚ)
  downtime : Option (ℤ × ℤ)
  failure_breakdown : Option (List (String × ℕ))
  deriving DecidableEq, Repr

/-- The final report: counters, rates (zero when no probe has run), optional
latency statistics, and — only when failures occurred — cumulative and max
downtime plus the sorted frequency breakdown of the failure reasons held in the
rolling buffer. -/
def print_final_stats (s : MonitorState) : FinalReport :=
  { total_pings := s.ping_count
    successes := s.success_count
    failures := s.failure_count
    success_rate :=
      if s.ping_count > 0 then (s.success_count : ℚ) / (s.ping_count : ℚ) * 100
      else 0
    loss_rate :=
      if s.ping_count > 0 then (s.failure_count : ℚ) / (s.ping_count : ℚ) * 100
      else 0
    rtt := rttStats s.recent_pings
    downtime :=
      if s.failure_count > 0 then some (s.downtime_duration, s.max_downtime)
      else none
    failure_breakdown :=
      if s.failure_count > 0 then
        if s.recent_failures.isEmpty then none
        else some (sortByCountDesc (failureTypes s.recent_failures))
      else none }

/-- C5: in both the periodic and the final report, the success rate equals
`success_count / total_probes * 100` and the loss rate equals
`failure_count / total_probes * 100` when at least one probe ran, and all rates
are `0` when no probe ran. -/
theorem rates_formula (cs : List Cycle) :
    (0 < (runCycles initState cs).ping_count →
      (print_stats (runCycles initState cs)).success_rate =
        ((runCycles initState cs).success_count : ℚ) /
          ((runCycles initState cs).ping_count : ℚ) * 100 ∧
      (print_final_stats (runCycles initState cs)).success_rate =
        ((runCycles initState cs).success_count : ℚ) /
          ((runCycles initState cs).ping_count : ℚ) * 100 ∧
      (print_final_stats (runCycles initState cs)).loss_rate =
        ((runCycles initState cs).failure_count : ℚ) /
          ((runCycles initState cs).ping_count : ℚ) * 100) ∧
    ((runCycles initState cs).ping_count = 0 →
      (print_stats (runCycles initState cs)).success_rate = 0 ∧
      (print_final_stats (runCycles initState cs)).success_rate = 0 ∧
      (print_final_stats (runCycles initState cs)).loss_rate = 0) := by
  constructor
  · intro h
    refine ⟨?_, ?_, ?_⟩ <;> simp [print_stats, print_final_stats, h]
  · intro h
    refine ⟨?_, ?_, ?_⟩ <;> simp [print_stats, print_final_stats, h]

/-- Concrete instantiation of `rates_formula`: a run of one success and one
failure has rates `1/2 * 100`, and the empty run reports `0`. -/
theorem rates_formula_witness :
    ((print_final_stats (runCycles initState
          [⟨0, PingOutcome.success 10⟩, ⟨1, PingOutcome.failure "f"⟩])).success_rate =
        ((runCycles initState
          [⟨0, PingOutcome.success 10⟩, ⟨1, PingOutcome.failure "f"⟩]).success_count : ℚ) /
          ((runCycles initState
            [⟨0, PingOutcome.success 10⟩, ⟨1, PingOutcome.failure "f"⟩]).ping_count : ℚ) * 100 ∧
      (print_final_stats (runCycles initState
          [⟨0, PingOutcome.success 10⟩, ⟨1, PingOutcome.failure "f"⟩])).loss_rate =
        ((runCycles initState
          [⟨0, PingOutcome.success 10⟩, ⟨1, PingOutcome.failure "f"⟩]).failure_count : ℚ) /
          ((runCycles initState
            [⟨0, PingOutcome.success 10⟩, ⟨1, PingOutcome.failure "f"⟩]).ping_count : ℚ) * 100) ∧
    (print_stats (runCycles initState ([] : List Cycle))).success_rate = 0 :=
  ⟨⟨((rates_formula
        [⟨0, PingOutcome.success 10⟩, ⟨1, PingOutcome.failure "f"⟩]).1
        (by decide)).2.1,
    ((rates_formula
        [⟨0, PingOutcome.success 10⟩, ⟨1, PingOutcome.failure "f"⟩]).1
        (by decide)).2.2⟩,
    ((rates_formula []).2 rfl).1⟩

/-- Specification-side description of the `failure_types` dictionary: the
distinct reasons in first-seen order (skipping those in `seen`), each paired
with its total number of occurrences from its first appearance onward. -/
def windowCountsExcl (seen : List String) : List String → List (String × ℕ)
  | [] => []
  | r :: rs =>
    if seen.contains r then windowCountsExcl seen rs
    else (r, 1 + rs.count r) :: windowCountsExcl (seen ++ [r]) rs

theorem fst_addReason_bump (r : String) (p : String × ℕ) :
    (if p.1 = r then (p.1, p.2 + 1) else p).1 = p.1 := by
  split_ifs <;> rfl

/-- The insertion-order dictionary fold agrees with its specification-side
description: existing keys get their count of the remaining occurrences added,
and the new keys follow in first-seen order with their occurrence counts. -/
theorem foldl_addReason_eq :
    ∀ (rs : List String) (acc : List (String × ℕ)),
      (acc.map Prod.fst).Nodup →
      rs.foldl addReason acc =
        acc.map (fun p => (p.1, p.2 + rs.count p.1)) ++
          windowCountsExcl (acc.map Prod.fst) rs := by
  intro rs
  induction rs with
  | nil =>
    intro acc _
    simp [windowCountsExcl]
  | cons r rs ih =>
    intro acc hnd
    rw [List.foldl_cons]
    by_cases hmem : (acc.map Prod.fst).contains r
    · have haddpos : addReason acc r =
          acc.map (fun p => if p.1 = r then (p.1, p.2 + 1) else p) := by
        unfold addReason
        rw [if_pos hmem]
      rw [haddpos]
      have hkeys : (acc.map (fun p => if p.1 = r then (p.1, p.2 + 1) else p)).map
          Prod.fst = acc.map Prod.fst := by
        rw [List.map_map]
        exact List.map_congr_left fun p _ => fst_addReason_bump r p
      rw [ih _ (by rw [hkeys]; exact hnd), hkeys, List.map_map]
      have hcount : windowCountsExcl (acc.map Prod.fst) (r :: rs) =
          windowCountsExcl (acc.map Prod.fst) rs := by
        rw [windowCountsExcl, if_pos hmem]
      rw [hcount]
      congr 1
      refine List.map_congr_left fun p _ => ?_
      by_cases hpr : p.1 = r
      · simp only [Function.comp_apply, if_pos hpr, hpr, List.count_cons,
          beq_self_eq_true, if_true, Prod.mk.injEq, true_and]
        omega
      · have hbeq : (r == p.1) = false :=
          beq_eq_false_iff_ne.mpr fun hh => hpr hh.symm
        simp [Function.comp, if_neg hpr, List.count_cons, hbeq]
    · have haddneg : addReason acc r = acc ++ [(r, 1)] := by
        unfold addReason
        rw [if_neg hmem]
      rw [haddneg]
      have hkeys : ((acc ++ [(r, 1)]).map Prod.fst) = acc.map Prod.fst ++ [r] := by
        simp
      have hnotmem : r ∉ acc.map Prod.fst := by
        intro hin
        exact hmem (List.contains_iff_exists_mem_beq.mpr ⟨r, hin, by simp⟩)
      have hnd2 : ((acc ++ [(r, 1)]).map Prod.fst).Nodup := by
        rw [hkeys]
        refine List.Nodup.append hnd (List.nodup_singleton r) ?_
        intro a ha hb
        rw [List.mem_singleton] at hb
        subst hb
        exact hnotmem ha
      rw [ih _ hnd2, hkeys]
      have hwc : windowCountsExcl (acc.map Prod.fst) (r :: rs) =
          (r, 1 + rs.count r) :: windowCountsExcl (acc.map Prod.fst ++ [r]) rs := by
        rw [windowCountsExcl, if_neg hmem]
      rw [hwc, List.map_append]
      have hmap : acc.map (fun p => (p.1, p.2 + rs.count p.1)) =
          acc.map (fun p => (p.1, p.2 + (r :: rs).count p.1)) := by
        refine List.map_congr_left fun p hp => ?_
        have hpr : p.1 ≠ r := by
          intro hh
          exact hnotmem (hh ▸ List.mem_map_of_mem Prod.fst hp)
        rw [List.count_cons]
        have : ¬ (r == p.1) = true := by
          simp only [beq_iff_eq]
          exact fun hh => hpr hh.symm
        simp [this]
      rw [hmap, List.append_assoc]
      simp

/-- The `failure_types` dictionary lists the distinct reasons of the buffer in
first-seen order, each with its occurrence count in the buffer. -/
theorem failureTypes_eq (rs : List String) :
    failureTypes rs = windowCountsExcl [] rs := by
  have := foldl_addReason_eq rs [] (by simp)
  simpa [failureTypes] using this

/-- A run of one failure with reason A followed by 100 failures with reason B:
enough failures to evict reason A from the rolling failure buffer. -/
def csWindow : List Cycle :=
  ⟨0, PingOutcome.failure "A"⟩ :: List.replicate 100 ⟨1, PingOutcome.failure "B"⟩

set_option maxRecDepth 10000

/-- C6 counterexample (continued below): computing the run shows the breakdown
lists only reason B although reason A occurred during the run. -/
theorem failure_breakdown_counterexample :
    (print_final_stats (runCycles initState csWindow)).failure_breakdown =
      some [("B", 100)] ∧
    PingOutcome.failure "A" ∈ csWindow.map Cycle.outcome ∧
    ∀ p ∈ [(("B" : String), (100 : ℕ))], p.1 ≠ "A" := by
  refine ⟨?_, by simp [csWindow], by decide⟩
  have h1 : (runCycles initState csWindow).failure_count > 0 := by decide
  have h2 : ¬ (runCycles initState csWindow).recent_failures.isEmpty = true := by
    decide
  have h3 : failureTypes (runCycles initState csWindow).recent_failures =
      [("B", 100)] := by decide
  simp only [print_final_stats]
  rw [if_pos h1, if_neg h2, h3]
  simp only [sortByCountDesc]
  rw [List.mergeSort_singleton]

/-- C6 (amended): when at least one probe failed, the final report emits a
frequency breakdown of the failure reasons retained in the rolling failure
buffer (the most recent at most 100 reasons), listing each distinct retained
reason with its occurrence count within the buffer, sorted by descending count
with ties kept in first-seen order (a stable sort of the first-seen counts). -/
theorem failure_breakdown_spec (cs : List Cycle)
    (h : 0 < (runCycles initState cs).failure_count) :
    (print_final_stats (runCycles initState cs)).failure_breakdown =
      some (sortByCountDesc
        (windowCountsExcl [] (runCycles initState cs).recent_failures)) ∧
    ∀ bd,
      (print_final_stats (runCycles initState cs)).failure_breakdown = some bd →
      bd.Perm (windowCountsExcl [] (runCycles initState cs).recent_failures) ∧
      bd.Pairwise (fun a b => b.2 ≤ a.2) := by
  have hinv := stateInv_runCycles initState cs stateInv_init
  have hlen : (runCycles initState cs).recent_failures.length =
      min (runCycles initState cs).failure_count 100 := hinv.2.2.1
  have hpos : 0 < (runCycles initState cs).recent_failures.length := by
    rw [hlen]; omega
  have hne : ¬ (runCycles initState cs).recent_failures.isEmpty = true := by
    rw [List.isEmpty_iff]
    exact List.length_pos.mp hpos
  have hbd : (print_final_stats (runCycles initState cs)).failure_breakdown =
      some (sortByCountDesc
        (windowCountsExcl [] (runCycles initState cs).recent_failures)) := by
    simp only [print_final_stats]
    rw [if_pos h, if_neg hne, failureTypes_eq]
  refine ⟨hbd, fun bd hbd2 => ?_⟩
  have hbdeq : bd = sortByCountDesc
      (windowCountsExcl [] (runCycles initState cs).recent_failures) := by
    rw [hbd] at hbd2
    exact (Option.some.injEq _ _ ▸ hbd2).symm
  subst hbdeq
  constructor
  · exact List.mergeSort_perm _ _
  · have hsorted := @List.sorted_mergeSort (String × ℕ)
      (fun a b => decide (b.2 ≤ a.2))
      (fun a b c hab hbc => by
        simp only [decide_eq_true_eq] at hab hbc ⊢
        omega)
      (fun a b => by
        simp only [Bool.or_eq_true, decide_eq_true_eq]
        omega)
      (windowCountsExcl [] (runCycles initState cs).recent_failures)
    exact hsorted.imp fun hab => of_decide_eq_true hab

/-- Concrete instantiation of `failure_breakdown_spec`: reasons a, b, a give
the breakdown of the buffer in stable descending-count order. -/
theorem failure_breakdown_spec_witness :
    (print_final_stats (runCycles initState
        [⟨0, PingOutcome.failure "a"⟩, ⟨1, PingOutcome.failure "b"⟩,
          ⟨2, PingOutcome.failure "a"⟩])).failure_breakdown =
      some (sortByCountDesc (windowCountsExcl []
        (runCycles initState
          [⟨0, PingOutcome.failure "a"⟩, ⟨1, PingOutcome.failure "b"⟩,
            ⟨2, PingOutcome.failure "a"⟩]).recent_failures)) :=
  (failure_breakdown_spec
    [⟨0, PingOutcome.failure "a"⟩, ⟨1, PingOutcome.failure "b"⟩,
      ⟨2, PingOutcome.failure "a"⟩] (by decide)).1

/-- Split a character list on a single separator character, keeping empty
segments — the behaviour of Python `str.split(sep)` for a one-character
separator, used for `split(chr(10))` over stdout and `split(chr(32))` inside a
line. -/
def splitOnChar (sep : Char) : List Char → List (List Char)
  | [] => [[]]
  | c :: cs =>
    let rest := splitOnChar sep cs
    if c = sep then [] :: rest
    else
      match rest with
      | r :: rs => (c :: r) :: rs
      | [] => [[c]]

/-- The suffix following the first occurrence of `sep` as a contiguous
subsequence, or `none` when `sep` does not occur — the test `sep in line`
combined with taking `split(sep)[1]` and everything after. -/
def afterSeq (sep : List Char) : List Char → Option (List Char)
  | [] => none
  | c :: cs =>
    if sep.isPrefixOf (c :: cs) then some ((c :: cs).drop sep.length)
    else afterSeq sep cs

/-- The prefix strictly before the next occurrence of `sep` (the whole list when
`sep` does not occur): together with `afterSeq` this is exactly the segment
`line.split(sep)[1]`. -/
def upToSeq (sep : List Char) : List Char → List Char
  | [] => []
  | c :: cs => if sep.isPrefixOf (c :: cs) then [] else c :: upToSeq sep cs

/-- Strip leading and trailing whitespace, as Python `float` does before
parsing (and as `str.strip()` does). -/
def trimChars (cs : List Char) : List Char :=
  ((cs.dropWhile Char.isWhitespace).reverse.dropWhile Char.isWhitespace).reverse

/-- Numeric value of a digit string. -/
def digitsVal (cs : List Char) : ℕ :=
  cs.foldl (fun n c => 10 * n + (c.toNat - 48)) 0

/-- Modelled from the builtin `float(...)` as applied to ping rtt tokens: an
optional sign followed by decimal digits with an optional fractional part,
surrounding whitespace stripped; any other shape raises, which the caller turns
into no match. -/
def parseFloatQ (s : List Char) : Option ℚ :=
  let cs := trimChars s
  let sign : ℚ :=
    match cs with
    | '-' :: _ => -1
    | _ => 1
  let cs2 : List Char :=
    match cs with
    | '-' :: rest => rest
    | '+' :: rest => rest
    | _ => cs
  let intPart := cs2.takeWhile Char.isDigit
  let rest := cs2.dropWhile Char.isDigit
  match rest with
  | [] => if intPart.isEmpty then none else some (sign * digitsVal intPart)
  | '.' :: fracRest =>
    let fracPart := fracRest.takeWhile Char.isDigit
    let rem := fracRest.dropWhile Char.isDigit
    if rem.isEmpty && (!intPart.isEmpty || !fracPart.isEmpty) then
      some (sign * ((digitsVal intPart : ℚ) +
        (digitsVal fracPart : ℚ) / (10 : ℚ) ^ fracPart.length))
    else none
  | _ => none

/-- Extraction of the rtt from one line of ping output (source lines 218-223):
when the line contains a time marker, parse
`float(line.split(marker)[1].split(chr(32))[0])`; a parse failure is swallowed
by the try/except and yields no match. -/
def extractRtt (line : List Char) : Option ℚ :=
  match afterSeq "time=".toList line with
  | some suffix =>
    parseFloatQ ((upToSeq "time=".toList suffix).takeWhile (fun c => c ≠ ' '))
  | none => none

/-- First line of the output with a parsable rtt, scanning in order (the `for`
loop over `result.stdout.split` in `ping_host`). -/
def scanForRtt : List (List Char) → Option ℚ
  | [] => none
  | l :: ls =>
    match extractRtt l with
    | some r => some r
    | none => scanForRtt ls

/-- Outcome of the ping subprocess call: completion with exit status, stdout
and stderr, or expiry of the outer watchdog (`subprocess.TimeoutExpired`). -/
inductive PingProcResult where
  | completed (returncode : Int) (stdout : String) (stderr : String)
  | timedOut
  deriving DecidableEq, Repr

/-- Python `str.strip()`. -/
def strip (s : String) : String :=
  String.mk (trimChars s.toList)

/-- `CellularMonitor.ping_host` after the subprocess call (source lines
206-232), returning `(success, rtt, error)`: on exit status 0 scan stdout for a
parsable rtt and fall back to the wall-clock elapsed time of the call in
milliseconds; on nonzero status fail with the stripped stderr, or a generic
message when stderr is empty; on watchdog expiry fail with the timeout
message. -/
def ping_host (res : PingProcResult) (elapsed : ℚ) :
    Bool × Option ℚ × Option String :=
  match res with
  | .timedOut => (false, none, some "Ping timeout")
  | .completed rc out err =>
    if rc = 0 then
      match scanForRtt (splitOnChar '\n' out.toList) with
      | some rtt => (true, some rtt, none)
      | none => (true, some (elapsed * 1000), none)
    else
      (false, none, some (if err = "" then "Ping failed" else strip err))

/-- C7: when ping exits with status 0 but no rtt can be parsed from its output,
`ping_host` reports the probe as a success with the wall-clock elapsed time of
the call (in milliseconds) as the latency estimate, never as a failure. -/
theorem ping_host_fallback (out err : String) (elapsed : ℚ)
    (hscan : scanForRtt (splitOnChar '\n' out.toList) = none) :
    ping_host (.completed 0 out err) elapsed =
      (true, some (elapsed * 1000), none) := by
  simp only [String.toList] at hscan
  simp [ping_host, hscan]

/-- Concrete instantiation of `ping_host_fallback`: a success exit whose output
has no time marker yields success with latency `7 * 1000`. -/
theorem ping_host_fallback_witness :
    scanForRtt (splitOnChar '\n' ("1 packets transmitted, 1 received").toList) =
      none ∧
    ping_host (.completed 0 "1 packets transmitted, 1 received" "") 7 =
      (true, some (7 * 1000), none) :=
  ⟨by decide, ping_host_fallback _ "" 7 (by decide)⟩

/-- The absolute end time of the run (source lines 254-255): set to
`start_time + duration` minutes only when the configured duration is non-zero
(Python truthiness of the integer); a zero duration leaves no end time, meaning
run indefinitely. -/
def end_time (start_time duration : ℤ) : Option ℤ :=
  if duration ≠ 0 then some (start_time + duration * 60) else none

/-- The loop-top duration check (source line 275):
`if self.end_time and datetime.now() >= self.end_time`. -/
def endReached (endT : Option ℤ) (now : ℤ) : Bool :=
  match endT with
  | some t => decide (now ≥ t)
  | none => false

/-- The monitoring loop with its duration check: each iteration first checks
the end time and stops cleanly before probing when it is reached; otherwise the
cycle is processed. An exhausted input list models interruption. -/
def monitorLoop (endT : Option ℤ) (s : MonitorState) : List Cycle → MonitorState
  | [] => s
  | c :: cs =>
    if endReached endT c.now then s
    else monitorLoop endT (step s c) cs

/-- `CellularMonitor.monitor`: run the loop from the initial state and emit the
final report from the resulting state on termination (the `finally` block runs
`print_final_stats` on every exit path: duration expiry or interrupt). -/
def monitor (duration start_time : ℤ) (cs : List Cycle) :
    MonitorState × FinalReport :=
  let s := monitorLoop (end_time start_time duration) initState cs
  (s, print_final_stats s)

theorem monitorLoop_none (s : MonitorState) (cs : List Cycle) :
    monitorLoop none s cs = runCycles s cs := by
  induction cs generalizing s with
  | nil => rfl
  | cons c cs ih =>
    rw [monitorLoop, runCycles_cons, if_neg (by simp [endReached])]
    exact ih (step s c)

theorem monitorLoop_some (t : ℤ) (s : MonitorState) (cs : List Cycle) :
    monitorLoop (some t) s cs =
      runCycles s (cs.takeWhile (fun c => decide (c.now < t))) := by
  induction cs generalizing s with
  | nil => rfl
  | cons c cs ih =>
    by_cases h : c.now ≥ t
    · rw [monitorLoop, if_pos (by simp [endReached]; omega),
        List.takeWhile_cons, if_neg (by simp; omega)]
      rfl
    · rw [monitorLoop, if_neg (by simp [endReached]; omega),
        List.takeWhile_cons, if_pos (by simp; omega), runCycles_cons]
      exact ih (step s c)

/-- C8: an absolute end time `start_time + duration * 60` is computed only for a
non-zero duration (zero means run indefinitely, processing every cycle); when
the end time is set, the loop processes exactly the cycles before the first one
whose timestamp is at or past the end time — so no probe is started at or after
the end time — and the final report is produced from the final state on every
termination path. -/
theorem duration_end_time (duration start_time : ℤ) (cs : List Cycle) :
    (duration = 0 →
      end_time start_time duration = none ∧
      monitorLoop (end_time start_time duration) initState cs =
        runCycles initState cs) ∧
    (duration ≠ 0 →
      end_time start_time duration = some (start_time + duration * 60) ∧
      monitorLoop (end_time start_time duration) initState cs =
        runCycles initState
          (cs.takeWhile (fun c => decide (c.now < start_time + duration * 60))) ∧
      ∀ c ∈ cs.takeWhile (fun c => decide (c.now < start_time + duration * 60)),
        c.now < start_time + duration * 60) ∧
    (monitor duration start_time cs).2 =
      print_final_stats (monitor duration start_time cs).1 := by
  refine ⟨fun h0 => ?_, fun hnz => ?_, rfl⟩
  · have he : end_time start_time duration = none := by simp [end_time, h0]
    exact ⟨he, by rw [he, monitorLoop_none]⟩
  · have he : end_time start_time duration =
        some (start_time + duration * 60) := by simp [end_time, hnz]
    refine ⟨he, by rw [he, monitorLoop_some], fun c hc => ?_⟩
    have h2 := List.mem_takeWhile_imp hc
    simpa using h2

/-- Concrete instantiations of `duration_end_time`: a zero duration processes
every cycle; a one-minute duration starting at 0 stops before the cycle at
timestamp 70. -/
theorem duration_end_time_witness :
    (end_time 0 0 = none ∧
      monitorLoop (end_time 0 0) initState [⟨5, PingOutcome.success 1⟩] =
        runCycles initState [⟨5, PingOutcome.success 1⟩]) ∧
    (end_time 0 1 = some (0 + 1 * 60) ∧
      monitorLoop (end_time 0 1) initState
          [⟨10, PingOutcome.success 1⟩, ⟨70, PingOutcome.success 1⟩] =
        runCycles initState
          ([⟨10, PingOutcome.success 1⟩, ⟨70, PingOutcome.success 1⟩].takeWhile
            (fun c => decide (c.now < 0 + 1 * 60))) ∧
      ∀ c ∈ ([⟨10, PingOutcome.success 1⟩,
          (⟨70, PingOutcome.success 1⟩ : Cycle)].takeWhile
            (fun c => decide (c.now < 0 + 1 * 60))),
        c.now < 0 + 1 * 60) :=
  ⟨(duration_end_time 0 0 [⟨5, PingOutcome.success 1⟩]).1 rfl,
    (duration_end_time 1 0
        [⟨10, PingOutcome.success 1⟩, ⟨70, PingOutcome.success 1⟩]).2.1
      (by decide)⟩

end PiCellular
